import Mathlib

/-!
Verification of the reconciliation and policy-resolution engine of pass-fxa
(src/main.rs): login extraction, filter-policy aggregation, sync-account
credential discovery, and the upload/deletion diff algorithms.

Shallow embedding notes:
* `Plaintext` models the decrypted secret body through the collaborator
  contract (first line plus `key: value` properties).
* `Url` models a parsed absolute URL by its host and its raw text; `Url.parse`
  models `Url::parse` for the http/https forms the program uses.
* Fatal paths (`exit(1)`, `unwrap` panics, `expect` panics) are explicit
  `ExtractResult.fatalError` / `MainOutcome` constructors.
-/

namespace PassFxa

/-- Candidate property names for the username (PROPERTY_USER_NAMES). -/
def PROPERTY_USER_NAMES : List String := ["login", "username", "user"]

/-- Candidate property names for the URL (PROPERTY_URL_NAMES). -/
def PROPERTY_URL_NAMES : List String := ["url", "uri", "website", "site", "link", "launch"]

/-- The per-entry filter marker (enum Filter in main.rs). -/
inductive Filter where
  | Exclude
  | Include
deriving DecidableEq

/-- `TryFrom<&str> for Filter`: only "exclude" and "include" are recognised. -/
def Filter.tryFrom (value : String) : Option Filter :=
  if value = "exclude" then some Filter.Exclude
  else if value = "include" then some Filter.Include
  else none

/-- Modelled from the spec: an absolute URL, as produced by the external `url`
crate, abstracted to its host and its text. Equality is structural. -/
structure Url where
  host : String
  raw : String
deriving DecidableEq

/-- Split a list of characters on a separator character. -/
def splitChars : List Char → List (List Char)
  | [] => [[]]
  | c :: rest =>
    if c = '/' then [] :: splitChars rest
    else
      match splitChars rest with
      | [] => [[c]]
      | seg :: segs => (c :: seg) :: segs

/-- The slash-separated segments of a hierarchical secret name. -/
def pathSegments (name : String) : List String :=
  (splitChars name.toList).map String.mk

/-- `Path::new(name).parent().unwrap().file_name()`: the immediate parent
directory segment, absent for a top-level name. -/
def parentSegment (name : String) : Option String :=
  match (pathSegments name).reverse with
  | _ :: parent :: _ => some parent
  | _ => none

/-- `Path::new(name).file_name()`: the final path segment. -/
def lastSegment (name : String) : String :=
  match (pathSegments name).reverse with
  | last :: _ => last
  | [] => ""

/-- Strip a literal leading character sequence, or fail. -/
def stripLeading : List Char → List Char → Option (List Char)
  | [], cs => some cs
  | _ :: _, [] => none
  | p :: ps, c :: cs => if c = p then stripLeading ps cs else none

/-- Modelled from the spec: `Url::parse` for the absolute http(s) URLs this
program builds and compares; the host is the authority before any
delimiter. -/
def Url.parse (s : String) : Option Url :=
  let cs := s.toList
  let afterScheme :=
    match stripLeading ("https://".toList) cs with
    | some rest => some rest
    | none => stripLeading ("http://".toList) cs
  match afterScheme with
  | none => none
  | some rest =>
    let host := rest.takeWhile (fun c => !(c == '/' || c == ':' || c == '?' || c == '#'))
    if host.isEmpty then none
    else some ⟨String.mk host, s⟩

/-- Modelled from the spec: the decrypted secret body collaborator — a first
line (the password) and case-sensitive `key: value` properties. -/
structure Plaintext where
  firstLine : Option String
  props : List (String × String)
deriving DecidableEq

/-- Modelled from the spec: `Plaintext::property`, exact-name lookup among the
declared `key: value` lines. -/
def Plaintext.property (p : Plaintext) (name : String) : Option String :=
  (p.props.find? (fun kv => decide (kv.1 = name))).map (fun kv => kv.2)

/-- A secret: hierarchical name plus decrypted body (`none` models a
decryption failure, which is fatal). -/
structure Secret where
  name : String
  decrypted : Option Plaintext
deriving DecidableEq

/-- A local login extracted from one secret (struct LocalLogin). -/
structure LocalLogin where
  password : String
  username : String
  url : Url
  filter : Option Filter
deriving DecidableEq

/-- Modelled from the spec: a remote login owned by the sync-client
collaborator (struct Login of pass-fxa-lib, outside src/): opaque id,
username, password, hostname. -/
structure Login where
  id : String
  username : String
  password : String
  hostname : Url
deriving DecidableEq

/-- Modelled from the spec: `Login::new` (pass-fxa-lib, outside src/) builds a
create job `{username, password, hostname}`; its id is collaborator-generated
and opaque, modelled as the empty string. -/
def Login.new (username password : String) (hostname : Url) : Login :=
  { id := "", username := username, password := password, hostname := hostname }

/-- Modelled from the spec: `Login::with_password` (pass-fxa-lib, outside
src/) keeps the remote identity and replaces only the password — the update
job `{remote-id, new-password}`. -/
def Login.with_password (l : Login) (password : String) : Login :=
  { l with password := password }

/-- `plaintext_property_any`: first present property among `names`, in order. -/
def plaintext_property_any (plaintext : Plaintext) (names : List String) : Option String :=
  names.findSome? (fun name => plaintext.property name)

/-- The result of `LocalLogin::new`: a fatal abort (decryption failure,
`unwrap`/`expect` panic), a silent skip (`None`), or an extracted login. -/
inductive ExtractResult where
  | fatalError (msg : String)
  | skipped
  | ok (login : LocalLogin)
deriving DecidableEq

/-- `LocalLogin::new` (main.rs lines 39-77): decrypt, take the first line as
password (`unwrap`), resolve the URL from properties or the parent path
segment (skipping via `?` when the latter is absent), resolve the username,
and parse the `fxa` filter marker (`expect` on unknown values). -/
def LocalLogin.new (secret : Secret) : ExtractResult :=
  match secret.decrypted with
  | none => ExtractResult.fatalError ("Failed to decrypt " ++ secret.name)
  | some plaintext =>
    match plaintext.firstLine with
    | none => ExtractResult.fatalError "missing password line"
    | some password =>
      let urlString? : Option String :=
        match plaintext_property_any plaintext PROPERTY_URL_NAMES with
        | none => (parentSegment secret.name).map (fun seg => "https://" ++ seg)
        | some u => some u
      match urlString? with
      | none => ExtractResult.skipped
      | some urlString =>
        match Url.parse urlString with
        | none => ExtractResult.fatalError "invalid URL"
        | some url =>
          let username :=
            match plaintext_property_any plaintext PROPERTY_USER_NAMES with
            | some u => u
            | none => lastSegment secret.name
          match plaintext.property "fxa" with
          | none => ExtractResult.ok { password := password, username := username, url := url, filter := none }
          | some v =>
            match Filter.tryFrom v with
            | none => ExtractResult.fatalError "Unkown setting"
            | some f => ExtractResult.ok { password := password, username := username, url := url, filter := some f }

/-- `LocalLogin::to_login` (main.rs lines 79-99): scan the remote snapshot in
order for the first entry matching on username and hostname; same password →
no job, different password → update job, no match → create job. -/
def LocalLogin.to_login (self : LocalLogin) : List Login → Option Login
  | [] => some (Login.new self.username self.password self.url)
  | online_login :: rest =>
    if online_login.username = self.username ∧ online_login.hostname = self.url then
      if online_login.password = self.password then none
      else some (online_login.with_password self.password)
    else self.to_login rest

/-- The job list computed by `upload` (main.rs lines 118-141): when either
flag is set, keep exactly the logins whose marker presence equals the
`include` flag, then diff each against the remote snapshot. -/
def logins_to_upload (excludeFlag includeFlag : Bool) (local_logins : List LocalLogin)
    (remote_logins : List Login) : List Login :=
  if excludeFlag || includeFlag then
    (local_logins.filter (fun login => includeFlag == login.filter.isSome)).filterMap
      (fun local_login => local_login.to_login remote_logins)
  else
    local_logins.filterMap (fun local_login => local_login.to_login remote_logins)

/-- The id list computed by `delete` (main.rs lines 143-161): remote ids whose
login matches some local login on username, password and URL. -/
def logins_to_delete (local_logins : List LocalLogin) (remote_logins : List Login) : List String :=
  remote_logins.filterMap (fun remote_login =>
    (local_logins.find? (fun local_login =>
      decide (local_login.username = remote_login.username ∧
              local_login.password = remote_login.password ∧
              local_login.url = remote_login.hostname))).map (fun _ => remote_login.id))

/-- C1: for an eligible local login L, if no remote login matches on username
and hostname, `to_login` emits exactly the create job with L's username,
password and hostname; otherwise, with R the first match in snapshot order,
it emits no job when the passwords agree and exactly the update job carrying
R's id (and username/hostname) with L's password when they differ. -/
theorem to_login_job_cases (L : LocalLogin) (remote : List Login) :
    (remote.find? (fun R => decide (R.username = L.username ∧ R.hostname = L.url)) = none →
      L.to_login remote = some (Login.new L.username L.password L.url))
    ∧ (∀ R, remote.find? (fun R => decide (R.username = L.username ∧ R.hostname = L.url)) = some R →
        (R.password = L.password → L.to_login remote = none)
        ∧ (¬ R.password = L.password →
            L.to_login remote =
              some { id := R.id, username := R.username, password := L.password,
                     hostname := R.hostname })) := by
  induction remote with
  | nil =>
    refine ⟨fun _ => rfl, fun R h => ?_⟩
    simp [List.find?] at h
  | cons o rest ih =>
    by_cases hc : o.username = L.username ∧ o.hostname = L.url
    · refine ⟨fun h => ?_, fun R h => ?_⟩
      · rw [List.find?_cons_of_pos _ (by simp [hc])] at h
        exact absurd h (by simp)
      · rw [List.find?_cons_of_pos _ (by simp [hc])] at h
        have hR : o = R := by simpa using h
        subst hR
        refine ⟨fun hp => ?_, fun hp => ?_⟩
        · simp [LocalLogin.to_login, hc, hp]
        · simp [LocalLogin.to_login, hc, hp, Login.with_password]
    · refine ⟨fun h => ?_, fun R h => ?_⟩
      · rw [List.find?_cons_of_neg _ (by simp [hc])] at h
        have := ih.1 h
        simpa [LocalLogin.to_login, hc] using this
      · rw [List.find?_cons_of_neg _ (by simp [hc])] at h
        have := ih.2 R h
        refine ⟨fun hp => ?_, fun hp => ?_⟩
        · simpa [LocalLogin.to_login, hc] using this.1 hp
        · simpa [LocalLogin.to_login, hc] using this.2 hp

/-- C1 witness: a concrete differing-password match yields exactly the update
job carrying the remote id and the local password. -/
theorem to_login_update_job_example :
    LocalLogin.to_login
      { password := "new", username := "a", url := ⟨"x.com", "https://x.com"⟩, filter := none }
      [{ id := "7", username := "a", password := "old", hostname := ⟨"x.com", "https://x.com"⟩ }]
    = some { id := "7", username := "a", password := "new", hostname := ⟨"x.com", "https://x.com"⟩ } := by
  have h := to_login_job_cases
    { password := "new", username := "a", url := ⟨"x.com", "https://x.com"⟩, filter := none }
    [{ id := "7", username := "a", password := "old", hostname := ⟨"x.com", "https://x.com"⟩ }]
  exact (h.2 { id := "7", username := "a", password := "old", hostname := ⟨"x.com", "https://x.com"⟩ }
    (by decide)).2 (by decide)

/-- C2: a remote login is marked for deletion iff some local login agrees with
it on username, password and hostname — all three fields; stated both as the
full characterisation of the computed id list and per single remote entry. -/
theorem delete_candidates_spec (local_logins : List LocalLogin) (remote_logins : List Login)
    (r : Login) :
    logins_to_delete local_logins remote_logins
      = (remote_logins.filter (fun rl =>
          decide (∃ l ∈ local_logins, l.username = rl.username ∧ l.password = rl.password ∧
            l.url = rl.hostname))).map (fun rl => rl.id)
    ∧ logins_to_delete local_logins [r]
      = (if ∃ l ∈ local_logins, l.username = r.username ∧ l.password = r.password ∧
            l.url = r.hostname
         then [r.id] else []) := by
  have main : ∀ rs : List Login, logins_to_delete local_logins rs
      = (rs.filter (fun rl =>
          decide (∃ l ∈ local_logins, l.username = rl.username ∧ l.password = rl.password ∧
            l.url = rl.hostname))).map (fun rl => rl.id) := by
    intro rs
    induction rs with
    | nil => rfl
    | cons a t ih =>
      cases hf : local_logins.find? (fun l =>
          decide (l.username = a.username ∧ l.password = a.password ∧ l.url = a.hostname)) with
      | none =>
        have hno : ¬ ∃ l ∈ local_logins, l.username = a.username ∧ l.password = a.password ∧
            l.url = a.hostname := by
          rintro ⟨l, hl, hp⟩
          have := List.find?_eq_none.mp hf l hl
          simp only [decide_eq_true_eq] at this
          exact this hp
        simp only [logins_to_delete] at ih ⊢
        simp [List.filterMap_cons, List.filter_cons, hf, hno, ih, -Bool.decide_and]
      | some l₀ =>
        have hyes : ∃ l ∈ local_logins, l.username = a.username ∧ l.password = a.password ∧
            l.url = a.hostname := by
          refine ⟨l₀, List.mem_of_find?_eq_some hf, ?_⟩
          have := List.find?_some hf
          simpa using this
        simp only [logins_to_delete] at ih ⊢
        simp [List.filterMap_cons, List.filter_cons, hf, hyes, ih, -Bool.decide_and]
  refine ⟨main remote_logins, ?_⟩
  rw [main [r]]
  by_cases h : ∃ l ∈ local_logins, l.username = r.username ∧ l.password = r.password ∧
      l.url = r.hostname
  · simp [List.filter, h]
  · simp [List.filter, h]

/-- The `delete` subcommand (enum Subcommand). -/
inductive Subcommand where
  | Delete
deriving DecidableEq

/-- Command-line options (struct Opt): the credential-location override and
the optional subcommand. -/
structure Opt where
  pass_name : Option String
  subcommand : Option Subcommand

/-- The mutable state of main's secret-processing loop (main.rs lines
186-233): chosen credentials, ambiguous-candidate list, accumulated local
logins, and the two filter flags. -/
structure LoopState where
  firefox_credentials : Option LocalLogin
  firefox_matches : List (String × String)
  local_logins : List LocalLogin
  seenInclude : Bool
  seenExclude : Bool
deriving DecidableEq

/-- The state before the loop runs. -/
def initialState : LoopState :=
  { firefox_credentials := none, firefox_matches := [], local_logins := [],
    seenInclude := false, seenExclude := false }

/-- One iteration of main's loop body for a successfully extracted login
(main.rs lines 203-232): update the filter flags, record firefox.com-hosted
and override-matching credential candidates, and push the login to the local
set unless it is a credential candidate without an `Include` marker. -/
def stepLogin (opt : Opt) (st : LoopState) (secretName : String) (l : LocalLogin) : LoopState :=
  { seenInclude := if l.filter = some Filter.Include then true else st.seenInclude
    seenExclude := if l.filter = some Filter.Exclude then true else st.seenExclude
    firefox_credentials :=
      if l.url.host = "firefox.com" then
        (if st.firefox_credentials = none then some l else st.firefox_credentials)
      else if opt.pass_name = some secretName then some l
      else st.firefox_credentials
    firefox_matches :=
      if l.url.host = "firefox.com" then st.firefox_matches ++ [(secretName, l.username)]
      else st.firefox_matches
    local_logins :=
      if (l.url.host = "firefox.com" ∨
            (¬ l.url.host = "firefox.com" ∧ opt.pass_name = some secretName))
          ∧ ¬ l.filter = some Filter.Include
      then st.local_logins
      else st.local_logins ++ [l] }

/-- The secret-processing loop (main.rs lines 200-233): extract each secret in
order; a fatal extraction aborts the run, a skipped secret is dropped, an
extracted login goes through `stepLogin`. -/
def runLoop (opt : Opt) (st : LoopState) : List Secret → Except String LoopState
  | [] => Except.ok st
  | secret :: rest =>
    match LocalLogin.new secret with
    | ExtractResult.fatalError msg => Except.error msg
    | ExtractResult.skipped => runLoop opt st rest
    | ExtractResult.ok l => runLoop opt (stepLogin opt st secret.name l) rest

/-- The observable outcome of one run of `main` (given the remote snapshot the
sync client would return): a fatal extraction abort, the two credential
failures, the conflicting-filter graceful no-op, or a reconciler run with its
job batch. -/
inductive MainOutcome where
  | fatalError (msg : String)
  | fatalNoCredentials
  | fatalAmbiguous (candidates : List (String × String))
  | abortConflicting
  | uploadRun (jobs : List Login)
  | deleteRun (ids : List String)
deriving DecidableEq

/-- The credential check after the loop (main.rs lines 239-261): with an
override, only `firefox_credentials.is_none()` is fatal; without one, zero
firefox.com candidates is fatal and two or more abort after listing every
candidate. `none` means the check passes. -/
def credentialGate (opt : Opt) (st : LoopState) : Option MainOutcome :=
  match opt.pass_name with
  | some _ =>
    if st.firefox_credentials = none then some MainOutcome.fatalNoCredentials else none
  | none =>
    match st.firefox_matches.length with
    | 0 => some MainOutcome.fatalNoCredentials
    | 1 => none
    | _ + 2 => some (MainOutcome.fatalAmbiguous st.firefox_matches)

/-- `main` (main.rs lines 181-286) as a function of the options, the secret
store contents, and the remote snapshot: run the loop, apply the credential
gate, bail out on conflicting filter settings, then run the selected
reconciler. -/
def mainModel (opt : Opt) (secrets : List Secret) (remote_logins : List Login) : MainOutcome :=
  match runLoop opt initialState secrets with
  | Except.error msg => MainOutcome.fatalError msg
  | Except.ok st =>
    match credentialGate opt st with
    | some out => out
    | none =>
      if st.seenExclude && st.seenInclude then MainOutcome.abortConflicting
      else
        match opt.subcommand with
        | some Subcommand.Delete =>
          MainOutcome.deleteRun (logins_to_delete st.local_logins remote_logins)
        | none =>
          MainOutcome.uploadRun
            (logins_to_upload st.seenExclude st.seenInclude st.local_logins remote_logins)

/-- Whether extraction of a secret aborts the run. -/
def ExtractResult.isFatal : ExtractResult → Bool
  | ExtractResult.fatalError _ => true
  | _ => false

/-- No secret in the store aborts extraction. -/
def extractionOk (secrets : List Secret) : Prop :=
  ∀ s ∈ secrets, (LocalLogin.new s).isFatal = false

instance (secrets : List Secret) : Decidable (extractionOk secrets) := by
  unfold extractionOk; infer_instance

/-- The (secret name, login) pairs successfully extracted from the store, in
store order. -/
def extractedLogins (secrets : List Secret) : List (String × LocalLogin) :=
  secrets.filterMap (fun s =>
    match LocalLogin.new s with
    | ExtractResult.ok l => some (s.name, l)
    | _ => none)

/-- The `(secret-name, username)` pairs of the firefox.com-hosted extracted
logins — the contents of `firefox_matches`. -/
def firefoxPairs (ps : List (String × LocalLogin)) : List (String × String) :=
  ps.filterMap (fun p =>
    if p.2.url.host = "firefox.com" then some (p.1, p.2.username) else none)

/-- The local-login set handed to the reconcilers: every extracted login
except credential candidates not marked `Include`; no filter-mode eligibility
is applied here. -/
def credentialExcluded (opt : Opt) (ps : List (String × LocalLogin)) : List LocalLogin :=
  ps.filterMap (fun p =>
    if (p.2.url.host = "firefox.com" ∨
          (¬ p.2.url.host = "firefox.com" ∧ opt.pass_name = some p.1))
        ∧ ¬ p.2.filter = some Filter.Include
    then none
    else some p.2)

/-- The loop restricted to already-extracted logins. -/
def loopFold (opt : Opt) (st : LoopState) : List (String × LocalLogin) → LoopState
  | [] => st
  | p :: ps => loopFold opt (stepLogin opt st p.1 p.2) ps

theorem runLoop_eq_loopFold (opt : Opt) (secrets : List Secret) :
    ∀ st : LoopState, extractionOk secrets →
      runLoop opt st secrets = Except.ok (loopFold opt st (extractedLogins secrets)) := by
  induction secrets with
  | nil => intro st _; rfl
  | cons s rest ih =>
    intro st h
    have hs : (LocalLogin.new s).isFatal = false := h s (List.mem_cons_self s rest)
    have hrest : extractionOk rest := fun t ht => h t (List.mem_cons_of_mem s ht)
    cases hn : LocalLogin.new s with
    | fatalError msg => rw [hn] at hs; simp [ExtractResult.isFatal] at hs
    | skipped =>
      simp only [runLoop, hn, extractedLogins, List.filterMap_cons]
      simp only [extractedLogins] at ih
      exact ih st hrest
    | ok l =>
      simp only [runLoop, hn, extractedLogins, List.filterMap_cons, loopFold]
      simp only [extractedLogins] at ih
      exact ih (stepLogin opt st s.name l) hrest

theorem loopFold_firefox_matches (opt : Opt) (ps : List (String × LocalLogin)) :
    ∀ st : LoopState,
      (loopFold opt st ps).firefox_matches = st.firefox_matches ++ firefoxPairs ps := by
  induction ps with
  | nil => intro st; simp [loopFold, firefoxPairs]
  | cons p ps ih =>
    intro st
    by_cases hff : p.2.url.host = "firefox.com"
    · simp [loopFold, ih, stepLogin, firefoxPairs, hff]
    · simp [loopFold, ih, stepLogin, firefoxPairs, hff]

theorem loopFold_credentials_none (opt : Opt) (ps : List (String × LocalLogin)) :
    ∀ st : LoopState,
      ((loopFold opt st ps).firefox_credentials = none ↔
        st.firefox_credentials = none ∧
          ∀ p ∈ ps, ¬ p.2.url.host = "firefox.com" ∧ ¬ opt.pass_name = some p.1) := by
  induction ps with
  | nil => intro st; simp [loopFold]
  | cons p ps ih =>
    intro st
    rw [loopFold, ih]
    by_cases hff : p.2.url.host = "firefox.com"
    · by_cases hcred : st.firefox_credentials = none
      · simp [stepLogin, hff, hcred]
      · simp [stepLogin, hff, hcred]
    · by_cases hov : opt.pass_name = some p.1
      · simp [stepLogin, hff, hov]
      · constructor
        · rintro ⟨h1, h2⟩
          simp only [stepLogin, if_neg hff, if_neg hov] at h1
          exact ⟨h1, fun q hq => by
            rcases List.mem_cons.mp hq with rfl | hq
            · exact ⟨hff, hov⟩
            · exact h2 q hq⟩
        · rintro ⟨h1, h2⟩
          refine ⟨?_, fun q hq => h2 q (List.mem_cons_of_mem p hq)⟩
          simp [stepLogin, hff, hov, h1]

theorem loopFold_seenInclude (opt : Opt) (ps : List (String × LocalLogin)) :
    ∀ st : LoopState,
      ((loopFold opt st ps).seenInclude = true ↔
        st.seenInclude = true ∨ ∃ p ∈ ps, p.2.filter = some Filter.Include) := by
  induction ps with
  | nil => intro st; simp [loopFold]
  | cons p ps ih =>
    intro st
    rw [loopFold, ih]
    by_cases hf : p.2.filter = some Filter.Include
    · simp [stepLogin, hf]
    · simp only [stepLogin, if_neg hf]
      constructor
      · rintro (h | ⟨q, hq, hqf⟩)
        · exact Or.inl h
        · exact Or.inr ⟨q, List.mem_cons_of_mem p hq, hqf⟩
      · rintro (h | ⟨q, hq, hqf⟩)
        · exact Or.inl h
        · rcases List.mem_cons.mp hq with rfl | hq
          · exact absurd hqf hf
          · exact Or.inr ⟨q, hq, hqf⟩

theorem loopFold_seenExclude (opt : Opt) (ps : List (String × LocalLogin)) :
    ∀ st : LoopState,
      ((loopFold opt st ps).seenExclude = true ↔
        st.seenExclude = true ∨ ∃ p ∈ ps, p.2.filter = some Filter.Exclude) := by
  induction ps with
  | nil => intro st; simp [loopFold]
  | cons p ps ih =>
    intro st
    rw [loopFold, ih]
    by_cases hf : p.2.filter = some Filter.Exclude
    · simp [stepLogin, hf]
    · simp only [stepLogin, if_neg hf]
      constructor
      · rintro (h | ⟨q, hq, hqf⟩)
        · exact Or.inl h
        · exact Or.inr ⟨q, List.mem_cons_of_mem p hq, hqf⟩
      · rintro (h | ⟨q, hq, hqf⟩)
        · exact Or.inl h
        · rcases List.mem_cons.mp hq with rfl | hq
          · exact absurd hqf hf
          · exact Or.inr ⟨q, hq, hqf⟩

theorem loopFold_local_logins (opt : Opt) (ps : List (String × LocalLogin)) :
    ∀ st : LoopState,
      (loopFold opt st ps).local_logins = st.local_logins ++ credentialExcluded opt ps := by
  induction ps with
  | nil => intro st; simp [loopFold, credentialExcluded]
  | cons p ps ih =>
    intro st
    rw [loopFold, ih]
    by_cases hc : (p.2.url.host = "firefox.com" ∨
        (¬ p.2.url.host = "firefox.com" ∧ opt.pass_name = some p.1))
        ∧ ¬ p.2.filter = some Filter.Include
    · simp [stepLogin, credentialExcluded, hc]
    · simp [stepLogin, credentialExcluded, hc]

/-- C3 counterexample: both markers present but no firefox.com credentials —
the run panics with the credentials error (an unsuccessful termination,
without the conflict notice) instead of the graceful conflicting no-op the
claim promises. -/
theorem conflicting_without_credentials_not_graceful :
    mainModel ⟨none, none⟩
      [⟨"web/a", some ⟨some "p", [("fxa", "include")]⟩⟩,
       ⟨"web/b", some ⟨some "q", [("fxa", "exclude")]⟩⟩] []
      = MainOutcome.fatalNoCredentials
    ∧ MainOutcome.fatalNoCredentials ≠ MainOutcome.abortConflicting := by
  exact ⟨by decide, by decide⟩

/-- C3 amended: when at least one extracted login carries `Include` and one
carries `Exclude`, and the credential gate passes, the run aborts with the
conflict notice and produces no jobs of any kind, for every remote snapshot
(the credential checks run first, so a credential failure pre-empts the
notice). -/
theorem conflicting_mode_graceful_after_gate (opt : Opt) (secrets : List Secret)
    (h0 : extractionOk secrets)
    (hI : ∃ p ∈ extractedLogins secrets, p.2.filter = some Filter.Include)
    (hE : ∃ p ∈ extractedLogins secrets, p.2.filter = some Filter.Exclude)
    (hGate : credentialGate opt (loopFold opt initialState (extractedLogins secrets)) = none) :
    ∀ remote : List Login, mainModel opt secrets remote = MainOutcome.abortConflicting := by
  intro remote
  have hrl := runLoop_eq_loopFold opt secrets initialState h0
  have hInc : (loopFold opt initialState (extractedLogins secrets)).seenInclude = true :=
    (loopFold_seenInclude opt (extractedLogins secrets) initialState).mpr (Or.inr hI)
  have hExc : (loopFold opt initialState (extractedLogins secrets)).seenExclude = true :=
    (loopFold_seenExclude opt (extractedLogins secrets) initialState).mpr (Or.inr hE)
  simp [mainModel, hrl, hGate, hInc, hExc]

/-- C3 witness: a concrete conflicting store with exactly one firefox.com
credential gracefully aborts. -/
theorem conflicting_mode_graceful_example :
    mainModel ⟨none, none⟩
      [⟨"web/a", some ⟨some "p", [("fxa", "include")]⟩⟩,
       ⟨"web/b", some ⟨some "q", [("fxa", "exclude")]⟩⟩,
       ⟨"firefox.com/me", some ⟨some "r", []⟩⟩] []
      = MainOutcome.abortConflicting := by
  exact conflicting_mode_graceful_after_gate ⟨none, none⟩
    [⟨"web/a", some ⟨some "p", [("fxa", "include")]⟩⟩,
     ⟨"web/b", some ⟨some "q", [("fxa", "exclude")]⟩⟩,
     ⟨"firefox.com/me", some ⟨some "r", []⟩⟩]
    (by decide) (by decide) (by decide) (by decide) []

/-- C4 counterexample: a secret whose plaintext has no retrievable first line
is not skipped — extraction hits the `unwrap` panic and the run aborts. -/
theorem missing_password_not_skipped :
    LocalLogin.new ⟨"dir/entry", some ⟨none, []⟩⟩
      = ExtractResult.fatalError "missing password line"
    ∧ ExtractResult.fatalError "missing password line" ≠ ExtractResult.skipped := by
  exact ⟨rfl, by decide⟩

/-- C4 amended: for every secret whose decrypted plaintext has no retrievable
first (password) line, extraction aborts the whole run fatally (the `unwrap`
on line 49 panics); the secret is not skipped and no later secret is
processed. -/
theorem missing_password_fatal (name : String) (props : List (String × String))
    (opt : Opt) (st : LoopState) (rest : List Secret) :
    LocalLogin.new ⟨name, some ⟨none, props⟩⟩ = ExtractResult.fatalError "missing password line"
    ∧ runLoop opt st (⟨name, some ⟨none, props⟩⟩ :: rest)
        = Except.error "missing password line" := by
  exact ⟨rfl, rfl⟩

/-- C5 counterexample: under exclude-only flags (`exclude = true`,
`include = false`) an `Include`-marked login — whose marker is not `Exclude` —
is filtered out of the upload set, although against an empty snapshot it
would have produced a create job. -/
theorem include_marked_filtered_under_exclude_mode :
    logins_to_upload true false
      [{ password := "p", username := "u", url := ⟨"x.com", "https://x.com"⟩,
         filter := some Filter.Include }] [] = []
    ∧ LocalLogin.to_login
        { password := "p", username := "u", url := ⟨"x.com", "https://x.com"⟩,
          filter := some Filter.Include } []
       = some (Login.new "u" "p" ⟨"x.com", "https://x.com"⟩) := by
  exact ⟨rfl, rfl⟩

/-- C5 amended: an `Include`-marked login is eligible under no-filter and
include-only flags; under exclude-only flags a login is eligible iff it is
unmarked — an `Include`-marked login would be dropped there, although that
flag combination cannot arise from a store containing it. -/
theorem upload_eligibility_by_mode (l : LocalLogin) (remote : List Login) :
    (l.filter = some Filter.Include →
      logins_to_upload false false [l] remote = (l.to_login remote).toList
      ∧ logins_to_upload false true [l] remote = (l.to_login remote).toList)
    ∧ logins_to_upload true false [l] remote
        = (if l.filter = none then (l.to_login remote).toList else []) := by
  constructor
  · intro hf
    constructor
    · simp only [logins_to_upload, Bool.false_or, Bool.or_self, if_neg Bool.false_ne_true]
      cases h : l.to_login remote <;> simp [h]
    · simp only [logins_to_upload]
      cases h : l.to_login remote <;> simp [h, hf]
  · cases hf : l.filter with
    | none =>
      simp only [logins_to_upload]
      cases h : l.to_login remote <;> simp [h, hf]
    | some f => simp [logins_to_upload, hf]

/-- C5 witness: a concrete `Include`-marked login is uploaded under
include-only flags. -/
theorem upload_eligibility_by_mode_example :
    logins_to_upload false true
      [{ password := "p", username := "u", url := ⟨"x.com", "https://x.com"⟩,
         filter := some Filter.Include }] []
      = [Login.new "u" "p" ⟨"x.com", "https://x.com"⟩] := by
  have h := (upload_eligibility_by_mode
    { password := "p", username := "u", url := ⟨"x.com", "https://x.com"⟩,
      filter := some Filter.Include } []).1 rfl
  rw [h.2]; rfl

/-- C6 counterexample: with an override that matches no secret but one
firefox.com-hosted login present, the run does not fail — the firefox.com
login is silently taken as the credentials and the upload path proceeds. -/
theorem override_miss_with_firefox_login_no_fatal :
    mainModel ⟨some "creds", none⟩ [⟨"firefox.com/bob", some ⟨some "pw", []⟩⟩] []
      = MainOutcome.uploadRun []
    ∧ LocalLogin.new ⟨"firefox.com/bob", some ⟨some "pw", []⟩⟩
        = ExtractResult.ok
            { password := "pw", username := "bob",
              url := ⟨"firefox.com", "https://firefox.com"⟩, filter := none }
    ∧ MainOutcome.uploadRun [] ≠ MainOutcome.fatalNoCredentials := by
  exact ⟨by decide, by decide, by decide⟩

/-- C6 amended: with an override supplied, the run fails with the
credentials-not-found panic — before any network interaction, hence for every
remote snapshot — exactly when no extracted login matches the override AND no
login is hosted at firefox.com; a firefox.com-hosted login would be selected
as credentials instead. -/
theorem override_miss_without_firefox_fatal (secrets : List Secret) (ov : String)
    (sub : Option Subcommand) (h0 : extractionOk secrets)
    (h1 : ∀ p ∈ extractedLogins secrets, ¬ p.2.url.host = "firefox.com" ∧ ¬ p.1 = ov) :
    ∀ remote : List Login,
      mainModel ⟨some ov, sub⟩ secrets remote = MainOutcome.fatalNoCredentials := by
  intro remote
  have hrl := runLoop_eq_loopFold ⟨some ov, sub⟩ secrets initialState h0
  have hcn : (loopFold ⟨some ov, sub⟩ initialState
      (extractedLogins secrets)).firefox_credentials = none := by
    rw [loopFold_credentials_none]
    refine ⟨rfl, fun p hp => ?_⟩
    rcases h1 p hp with ⟨ha, hb⟩
    refine ⟨ha, fun he => ?_⟩
    exact hb (by simpa using he.symm)
  simp [mainModel, hrl, credentialGate, hcn]

/-- C6 witness: an override matching nothing, with no firefox.com logins,
panics with the credentials error. -/
theorem override_miss_without_firefox_fatal_example :
    mainModel ⟨some "creds", none⟩ [⟨"web/a", some ⟨some "p", []⟩⟩] []
      = MainOutcome.fatalNoCredentials := by
  exact override_miss_without_firefox_fatal [⟨"web/a", some ⟨some "p", []⟩⟩] "creds" none
    (by decide) (by decide) []

/-- C7 counterexample: with an override supplied ("creds", matched by another
secret), a firefox.com-hosted login that does not match the override is still
dropped from the local set: it extracts fine and would produce a create job
against the empty snapshot, yet the upload run carries no job at all. -/
theorem firefox_login_excluded_despite_override :
    mainModel ⟨some "creds", none⟩
      [⟨"creds", some ⟨some "cpw", [("url", "https://example.com"), ("user", "carol")]⟩⟩,
       ⟨"firefox.com/bob", some ⟨some "pw", []⟩⟩] []
      = MainOutcome.uploadRun []
    ∧ LocalLogin.new ⟨"firefox.com/bob", some ⟨some "pw", []⟩⟩
        = ExtractResult.ok
            { password := "pw", username := "bob",
              url := ⟨"firefox.com", "https://firefox.com"⟩, filter := none }
    ∧ LocalLogin.to_login
        { password := "pw", username := "bob",
          url := ⟨"firefox.com", "https://firefox.com"⟩, filter := none } []
        = some (Login.new "bob" "pw" ⟨"firefox.com", "https://firefox.com"⟩) := by
  exact ⟨by decide, by decide, rfl⟩

/-- C7 amended: every firefox.com-hosted login is treated as a credential
candidate regardless of any override: the loop records it among the
`firefox_matches` candidates and keeps it out of the local set handed to the
reconcilers unless its own marker is `Include`. -/
theorem firefox_login_is_cred_candidate (opt : Opt) (st : LoopState)
    (secretName : String) (l : LocalLogin) (hff : l.url.host = "firefox.com") :
    ((stepLogin opt st secretName l).local_logins
      = if l.filter = some Filter.Include then st.local_logins ++ [l] else st.local_logins)
    ∧ (stepLogin opt st secretName l).firefox_matches
        = st.firefox_matches ++ [(secretName, l.username)] := by
  constructor
  · by_cases hf : l.filter = some Filter.Include
    · simp [stepLogin, hff, hf]
    · simp [stepLogin, hff, hf]
  · simp [stepLogin, hff]

/-- C7 witness: a concrete unmarked firefox.com login is recorded as a
candidate and kept out of the local set even though an override is active. -/
theorem firefox_login_is_cred_candidate_example :
    (stepLogin ⟨some "creds", none⟩ initialState "firefox.com/bob"
      { password := "pw", username := "bob",
        url := ⟨"firefox.com", "https://firefox.com"⟩, filter := none }).local_logins = []
    ∧ (stepLogin ⟨some "creds", none⟩ initialState "firefox.com/bob"
        { password := "pw", username := "bob",
          url := ⟨"firefox.com", "https://firefox.com"⟩, filter := none }).firefox_matches
        = [("firefox.com/bob", "bob")] := by
  have h := firefox_login_is_cred_candidate ⟨some "creds", none⟩ initialState
    "firefox.com/bob"
    { password := "pw", username := "bob",
      url := ⟨"firefox.com", "https://firefox.com"⟩, filter := none } rfl
  exact ⟨by rw [h.1]; rfl, by rw [h.2]; rfl⟩

/-- C8: with no override and two or more firefox.com-hosted local logins, the
run aborts through the ambiguity branch carrying the `(secret-name,
username)` pair of every firefox.com candidate, for every remote snapshot —
so before any network call. -/
theorem ambiguous_firefox_credentials_abort (secrets : List Secret)
    (sub : Option Subcommand) (h0 : extractionOk secrets)
    (h2 : 2 ≤ (firefoxPairs (extractedLogins secrets)).length) :
    ∀ remote : List Login,
      mainModel ⟨none, sub⟩ secrets remote
        = MainOutcome.fatalAmbiguous (firefoxPairs (extractedLogins secrets)) := by
  intro remote
  have hrl := runLoop_eq_loopFold ⟨none, sub⟩ secrets initialState h0
  have hm : (loopFold ⟨none, sub⟩ initialState (extractedLogins secrets)).firefox_matches
      = firefoxPairs (extractedLogins secrets) := by
    rw [loopFold_firefox_matches]; rfl
  obtain ⟨n, hn⟩ : ∃ n, (firefoxPairs (extractedLogins secrets)).length = n + 2 :=
    ⟨(firefoxPairs (extractedLogins secrets)).length - 2, by omega⟩
  simp [mainModel, hrl, credentialGate, hm, hn]

/-- C8 witness: two firefox.com secrets without an override abort, listing
both candidates. -/
theorem ambiguous_firefox_credentials_abort_example :
    mainModel ⟨none, none⟩
      [⟨"firefox.com/a", some ⟨some "p1", []⟩⟩, ⟨"firefox.com/b", some ⟨some "p2", []⟩⟩] []
      = MainOutcome.fatalAmbiguous [("firefox.com/a", "a"), ("firefox.com/b", "b")] := by
  have h := ambiguous_firefox_credentials_abort
    [⟨"firefox.com/a", some ⟨some "p1", []⟩⟩, ⟨"firefox.com/b", some ⟨some "p2", []⟩⟩]
    none (by decide) (by decide) []
  exact h.trans (by decide)

theorem credentialGate_some_shape (opt : Opt) (st : LoopState) (out : MainOutcome)
    (h : credentialGate opt st = some out) :
    out = MainOutcome.fatalNoCredentials
    ∨ out = MainOutcome.fatalAmbiguous st.firefox_matches := by
  unfold credentialGate at h
  cases hpn : opt.pass_name with
  | some ov =>
    rw [hpn] at h
    by_cases hc : st.firefox_credentials = none
    · rw [if_pos hc] at h
      exact Or.inl (by injection h with h; exact h.symm)
    · rw [if_neg hc] at h
      exact absurd h (by simp)
  | none =>
    rw [hpn] at h
    rcases hlen : st.firefox_matches.length with _ | m
    · rw [hlen] at h
      exact Or.inl (by injection h with h; exact h.symm)
    · rcases m with _ | n
      · rw [hlen] at h
        exact absurd h (by simp)
      · rw [hlen] at h
        exact Or.inr (by injection h with h; exact h.symm)

theorem mem_logins_to_delete (local_logins : List LocalLogin) (remote : List Login)
    (l : LocalLogin) (r : Login) (hl : l ∈ local_logins) (hr : r ∈ remote)
    (hm : l.username = r.username ∧ l.password = r.password ∧ l.url = r.hostname) :
    r.id ∈ logins_to_delete local_logins remote := by
  induction remote with
  | nil => cases hr
  | cons a t ih =>
    rcases List.mem_cons.mp hr with rfl | hr
    · have hsome : (local_logins.find? (fun ll =>
          decide (ll.username = r.username ∧ ll.password = r.password ∧
            ll.url = r.hostname))).isSome := by
        rw [List.find?_isSome]
        exact ⟨l, hl, by simpa using hm⟩
      cases hf : local_logins.find? (fun ll =>
          decide (ll.username = r.username ∧ ll.password = r.password ∧
            ll.url = r.hostname)) with
      | none => rw [hf] at hsome; simp at hsome
      | some b =>
        simp only [logins_to_delete, List.filterMap_cons, hf, Option.map_some']
        exact List.mem_cons_self _ _
    · have hmem := ih hr
      simp only [logins_to_delete, List.filterMap_cons]
      cases hf : local_logins.find? (fun ll =>
          decide (ll.username = a.username ∧ ll.password = a.password ∧
            ll.url = a.hostname)) with
      | none => simpa [logins_to_delete] using hmem
      | some b =>
        simp only [Option.map_some']
        exact List.mem_cons_of_mem _ (by simpa [logins_to_delete] using hmem)

/-- C9: whenever a delete run happens, its id batch is computed from the full
credential-excluded local set — no filter-mode eligibility is applied — and
consequently every local login of that set (whatever its marker, e.g. one
marked `Exclude` while exclude-only mode is active, or unmarked while
include-only mode is active) makes every remote login matching it on
username, password and hostname a delete candidate. -/
theorem delete_uses_unfiltered_local_set (secrets : List Secret) (pn : Option String)
    (remote : List Login) (ids : List String) (h0 : extractionOk secrets)
    (h1 : mainModel ⟨pn, some Subcommand.Delete⟩ secrets remote = MainOutcome.deleteRun ids) :
    ids = logins_to_delete
        (credentialExcluded ⟨pn, some Subcommand.Delete⟩ (extractedLogins secrets)) remote
    ∧ ∀ l ∈ credentialExcluded ⟨pn, some Subcommand.Delete⟩ (extractedLogins secrets),
        ∀ r ∈ remote,
          l.username = r.username ∧ l.password = r.password ∧ l.url = r.hostname →
            r.id ∈ ids := by
  have hrl := runLoop_eq_loopFold ⟨pn, some Subcommand.Delete⟩ secrets initialState h0
  have hloc : (loopFold ⟨pn, some Subcommand.Delete⟩ initialState
      (extractedLogins secrets)).local_logins
      = credentialExcluded ⟨pn, some Subcommand.Delete⟩ (extractedLogins secrets) := by
    rw [loopFold_local_logins]; rfl
  simp only [mainModel, hrl] at h1
  have hids : ids = logins_to_delete
      (credentialExcluded ⟨pn, some Subcommand.Delete⟩ (extractedLogins secrets)) remote := by
    cases hg : credentialGate ⟨pn, some Subcommand.Delete⟩
        (loopFold ⟨pn, some Subcommand.Delete⟩ initialState (extractedLogins secrets)) with
    | some out =>
      rw [hg] at h1
      rcases credentialGate_some_shape _ _ _ hg with hout | hout <;>
        (rw [hout] at h1; exact absurd h1 (by simp))
    | none =>
      rw [hg] at h1
      by_cases hconf : ((loopFold ⟨pn, some Subcommand.Delete⟩ initialState
          (extractedLogins secrets)).seenExclude
          && (loopFold ⟨pn, some Subcommand.Delete⟩ initialState
            (extractedLogins secrets)).seenInclude) = true
      · simp only [if_pos hconf] at h1
        exact absurd h1 (by simp)
      · simp only [if_neg hconf] at h1
        rw [hloc] at h1
        injection h1 with h1
        exact h1.symm
  refine ⟨hids, fun l hl r hr hm => ?_⟩
  rw [hids]
  exact mem_logins_to_delete _ _ l r hl hr hm

/-- C9 witness: in delete mode under active exclude-only settings, an
`Exclude`-marked login (ineligible for upload) still deletes its exact remote
match. -/
theorem delete_uses_unfiltered_local_set_example :
    mainModel ⟨none, some Subcommand.Delete⟩
      [⟨"firefox.com/me", some ⟨some "r", []⟩⟩,
       ⟨"web/b", some ⟨some "q", [("fxa", "exclude")]⟩⟩]
      [{ id := "9", username := "b", password := "q", hostname := ⟨"web", "https://web"⟩ }]
      = MainOutcome.deleteRun ["9"]
    ∧ ("9" : String) ∈ logins_to_delete
        (credentialExcluded ⟨none, some Subcommand.Delete⟩ (extractedLogins
          [⟨"firefox.com/me", some ⟨some "r", []⟩⟩,
           ⟨"web/b", some ⟨some "q", [("fxa", "exclude")]⟩⟩]))
        [{ id := "9", username := "b", password := "q", hostname := ⟨"web", "https://web"⟩ }] := by
  have h := delete_uses_unfiltered_local_set
    [⟨"firefox.com/me", some ⟨some "r", []⟩⟩,
     ⟨"web/b", some ⟨some "q", [("fxa", "exclude")]⟩⟩]
    none
    [{ id := "9", username := "b", password := "q", hostname := ⟨"web", "https://web"⟩ }]
    ["9"] (by decide) (by decide)
  refine ⟨by decide, ?_⟩
  rw [← h.1]
  exact h.2
    { password := "q", username := "b", url := ⟨"web", "https://web"⟩,
      filter := some Filter.Exclude }
    (by decide)
    { id := "9", username := "b", password := "q", hostname := ⟨"web", "https://web"⟩ }
    (by decide) (by decide)

/-- C10 counterexample: a top-level secret with no URL property whose
plaintext lacks a first line is not silently dropped — the password `unwrap`
panics first, so extraction is a fatal error rather than a skip. -/
theorem toplevel_no_url_empty_plaintext_fatal :
    LocalLogin.new ⟨"toplevel", some ⟨none, []⟩⟩
      = ExtractResult.fatalError "missing password line"
    ∧ ExtractResult.fatalError "missing password line" ≠ ExtractResult.skipped := by
  exact ⟨rfl, by decide⟩

/-- C10 amended: for every secret whose plaintext has a retrievable first
line, carries none of the URL properties, and whose hierarchical name has no
parent directory segment, extraction returns the silent skip — no login and
no error. -/
theorem toplevel_no_url_skipped (name pw : String) (props : List (String × String))
    (hu : plaintext_property_any ⟨some pw, props⟩ PROPERTY_URL_NAMES = none)
    (hp : parentSegment name = none) :
    LocalLogin.new ⟨name, some ⟨some pw, props⟩⟩ = ExtractResult.skipped := by
  simp [LocalLogin.new, hu, hp]

/-- C10 witness: a concrete top-level secret with a password and no URL
property is skipped. -/
theorem toplevel_no_url_skipped_example :
    LocalLogin.new ⟨"note", some ⟨some "pw", [("user", "x")]⟩⟩ = ExtractResult.skipped := by
  exact toplevel_no_url_skipped "note" "pw" [("user", "x")] (by decide) (by decide)

end PassFxa
